import Mathlib

/-!
# Random sources of gofakeit (`faker.go`)

A shallow embedding of `faker.go`: the locked source, the crypto source, the
constructors `New`, `NewUnlocked`, `NewCrypto`, the package-level `Seed` and
`SetGlobalFaker`.

Conventions of the embedding.

* A call ends in one of three ways, `Outcome`: it returns, it unwinds with a
  panic, or it never returns because it waits on a mutex that is held.
* `crypto/rand.Reader` is explicit state, `Reader`: the bytes the operating
  system will deliver next, with `none` marking the point where a read returns
  an error.  A function that leaves the `Reader` as it found it has read no
  entropy.
* `uint64` values are `Nat`, `int64` values are `Int`; the conversion
  `int64(u)` is `int64OfUint64`.
* The deterministic generator behind `rand.NewSource` belongs to the Go
  standard library, not to this repository: it is a parameter, `StdSource`.
  The file imports `math/rand/v2` and calls `rand.NewSource`, `Source.Seed`
  and `Rand.Seed`, which are the API of `math/rand`; the embedding follows the
  calls as they are written.
* A constructor returns a `Faker` together with the `rand.Rand` and the source
  it has just allocated, as one value.  The package-level functions act on a
  `World` of objects with addresses (`Nat`): a `Faker` holds the address of its
  `rand.Rand`, a `rand.Rand` the address of its source, so several `Faker`s
  may share a `rand.Rand` and several `rand.Rand`s a source.
* A source of the caller (`NewCustom`) is its method table and its state; its
  methods act on that state only.
* `crand.Read` returns its error, as up to Go 1.23; from Go 1.24 a failed read
  ends the process, which `cryptoRand.Uint64Fatal` models.
-/

namespace Gofakeit

/-! ## Calls, bytes and the entropy reader -/

/-- How a call ends: a normal return with a value, a panic that unwinds the
call, or no return at all (the goroutine waits on a held mutex). -/
inductive Outcome (α : Type) where
  | ret (a : α)
  | panicked
  | blocked
  deriving DecidableEq

/-- One octet. -/
abbrev Byte := Fin 256

/-- State of `crypto/rand.Reader`: the stream it will deliver, `some b` for a
byte and `none` for the point at which a read returns an error.  An exhausted
stream returns an error as well. -/
abbrev Reader := List (Option Byte)

/-- What `io.ReadFull` leaves behind: the bytes copied into the buffer, whether
`err == nil`, and the reader afterwards. -/
structure ReadResult where
  bytes : List Byte
  ok : Bool
  rest : Reader
  deriving DecidableEq

/-- The call `io.ReadFull(crand.Reader, buf)` for a buffer of `n` bytes: bytes are
copied until `n` are there or the reader reports an error. -/
def readFull : Nat → Reader → ReadResult
  | 0, e => ⟨[], true, e⟩
  | _ + 1, [] => ⟨[], false, []⟩
  | _ + 1, none :: e => ⟨[], false, e⟩
  | n + 1, some b :: e =>
    let r := readFull n e
    ⟨b :: r.bytes, r.ok, r.rest⟩

/-- Big-endian value of the first eight bytes of `b`. -/
def beValue (b : List Byte) : Nat :=
  (b.take 8).foldl (fun acc x => acc * 256 + x.val) 0

/-- The call `binary.BigEndian.Uint64(b)`: it panics (index out of range) on a slice
shorter than eight bytes. -/
def bigEndianUint64 (b : List Byte) : Outcome Nat :=
  if 8 ≤ b.length then .ret (beValue b) else .panicked

/-- The conversion `int64(u)` of a `uint64`: two's complement. -/
def int64OfUint64 (u : Nat) : Int :=
  if u % 2 ^ 64 < 2 ^ 63 then ((u % 2 ^ 64 : Nat) : Int) else ((u % 2 ^ 64 : Nat) : Int) - 2 ^ 64

/-- What `binary.Read(crand.Reader, binary.BigEndian, &seed)` leaves behind: the
variable `seed`, whether `err == nil`, and the reader afterwards. -/
structure SeedRead where
  seed : Int
  ok : Bool
  rest : Reader
  deriving DecidableEq

/-- The call `binary.Read(crand.Reader, binary.BigEndian, &seed)`: eight bytes are read
into a scratch buffer; when that succeeds `seed` receives their big-endian
value as an `int64`, when it fails `seed` is left as it was and the error is
the return value. -/
def binaryRead (seed : Int) (e : Reader) : SeedRead :=
  let r := readFull 8 e
  if r.ok then ⟨int64OfUint64 (beValue r.bytes), true, r.rest⟩ else ⟨seed, false, r.rest⟩

/-! ## The standard library's generator and the `rand.Source` interface -/

/-- The deterministic generator of the standard library, as `faker.go` uses it:
`rand.NewSource(seed)`, and the methods `Uint64` and `Seed` of the value it
returns.  None of the three can fail. -/
structure StdSource (σ : Type) where
  NewSource : Int → σ
  Uint64 : σ → Nat × σ
  Seed : Int → σ → σ

/-- An implementation of the interface `rand.Source` (with `Uint64`), as
`lockedSource` sees the value in its field `src`: any method may panic or
block, and the state it leaves is returned in every case. -/
structure SourceImpl (σ : Type) where
  Uint64 : σ → Outcome Nat × σ
  Seed : Int → σ → Outcome Unit × σ

/-- The standard generator seen through the interface. -/
def StdSource.impl {σ : Type} (P : StdSource σ) : SourceImpl σ where
  Uint64 st := (.ret (P.Uint64 st).1, (P.Uint64 st).2)
  Seed seed st := (.ret (), P.Seed seed st)

/-- The contract of `Seed` in `math/rand`: it initialises the generator to the
state `NewSource` gives for the same seed, whatever the state was. -/
def StdSource.SeedResets {σ : Type} (P : StdSource σ) : Prop :=
  ∀ (seed : Int) (st : σ), P.Seed seed st = P.NewSource seed

/-- The first `n` values of the standard generator from state `st`. -/
def StdSource.stream {σ : Type} (P : StdSource σ) : Nat → σ → List Nat
  | 0, _ => []
  | n + 1, st => (P.Uint64 st).1 :: P.stream n (P.Uint64 st).2

/-! ## `sync.Mutex` -/

/-- The call `m.Lock()` on a mutex whose state is `lk` (`true`: held): it takes a free
mutex and waits for ever, in a sequential run, on a held one. -/
def mutexLock (lk : Bool) : Outcome Bool :=
  if lk then .blocked else .ret true

/-- The call `m.Unlock()`: it frees a held mutex; unlocking a free mutex is a fatal
error. -/
def mutexUnlock (lk : Bool) : Outcome Bool :=
  if lk then .ret false else .panicked

/-! ## `lockedSource` -/

/-- The struct `lockedSource`: the mutex `lk` and the wrapped source `src`. -/
structure lockedSource (σ : Type) where
  lk : Bool
  src : σ
  deriving DecidableEq

/-- The method `(*lockedSource).Uint64`: `Lock`, draw from `src`, `Unlock`, return.  The
unlock is an ordinary statement after the draw, not a deferred call. -/
def lockedSource.Uint64 {σ : Type} (I : SourceImpl σ) (r : lockedSource σ) :
    Outcome Nat × lockedSource σ :=
  match mutexLock r.lk with                      -- r.lk.Lock()
  | .ret lk1 =>
    match I.Uint64 r.src with                    -- n = r.src.Uint64()
    | (.ret n, s1) =>
      match mutexUnlock lk1 with                 -- r.lk.Unlock()
      | .ret lk2 => (.ret n, ⟨lk2, s1⟩)          -- return
      | .panicked => (.panicked, ⟨lk1, s1⟩)
      | .blocked => (.blocked, ⟨lk1, s1⟩)
    | (.panicked, s1) => (.panicked, ⟨lk1, s1⟩)
    | (.blocked, s1) => (.blocked, ⟨lk1, s1⟩)
  | .panicked => (.panicked, r)
  | .blocked => (.blocked, r)

/-- The method `(*lockedSource).Seed`: `Lock`, reseed `src`, `Unlock`. -/
def lockedSource.Seed {σ : Type} (I : SourceImpl σ) (r : lockedSource σ) (seed : Int) :
    Outcome Unit × lockedSource σ :=
  match mutexLock r.lk with                      -- r.lk.Lock()
  | .ret lk1 =>
    match I.Seed seed r.src with                 -- r.src.Seed(seed)
    | (.ret _, s1) =>
      match mutexUnlock lk1 with                 -- r.lk.Unlock()
      | .ret lk2 => (.ret (), ⟨lk2, s1⟩)
      | .panicked => (.panicked, ⟨lk1, s1⟩)
      | .blocked => (.blocked, ⟨lk1, s1⟩)
    | (.panicked, s1) => (.panicked, ⟨lk1, s1⟩)
    | (.blocked, s1) => (.blocked, ⟨lk1, s1⟩)
  | .panicked => (.panicked, r)
  | .blocked => (.blocked, r)

/-! ## `cryptoRand` -/

/-- The struct `cryptoRand`: the embedded mutex and the buffer `buf`. -/
structure cryptoRand where
  lk : Bool
  buf : List Byte
  deriving DecidableEq

/-- The method `(*cryptoRand).Seed`: the body is empty. -/
def cryptoRand.Seed (c : cryptoRand) (_seed : Int) (e : Reader) :
    Outcome Unit × cryptoRand × Reader :=
  (.ret (), c, e)

/-- The buffer after `crand.Read(buf)`: the bytes delivered overwrite its
beginning. -/
def fillBuf (buf : List Byte) (r : ReadResult) : List Byte :=
  r.bytes ++ buf.drop r.bytes.length

/-- The method `(*cryptoRand).Uint64`: `Lock`, `defer Unlock`, fill `buf` from
`crand.Reader` (both results of `crand.Read` are discarded), return the
big-endian value of `buf`.  The deferred unlock runs on the return and on a
panic of the decoding alike. -/
def cryptoRand.Uint64 (c : cryptoRand) (e : Reader) : Outcome Nat × cryptoRand × Reader :=
  match mutexLock c.lk with                      -- c.Lock()
  | .ret lk1 =>
    let r := readFull c.buf.length e             -- crand.Read(c.buf)
    let buf1 := fillBuf c.buf r
    let out := bigEndianUint64 buf1              -- binary.BigEndian.Uint64(c.buf)
    match mutexUnlock lk1 with                   -- deferred c.Unlock()
    | .ret lk2 => (out, ⟨lk2, buf1⟩, r.rest)
    | .panicked => (.panicked, ⟨lk1, buf1⟩, r.rest)
    | .blocked => (.blocked, ⟨lk1, buf1⟩, r.rest)
  | .panicked => (.panicked, c, e)
  | .blocked => (.blocked, c, e)

/-- The method `(*cryptoRand).Uint64` where a failed `crand.Read` does not return
its error but ends the process (Go 1.24 and later): `none` when the process
ends inside the call, so that the call has no exit; otherwise as
`cryptoRand.Uint64`. -/
def cryptoRand.Uint64Fatal (c : cryptoRand) (e : Reader) :
    Option (Outcome Nat × cryptoRand × Reader) :=
  match mutexLock c.lk with                      -- c.Lock()
  | .ret lk1 =>
    let r := readFull c.buf.length e             -- crand.Read(c.buf)
    if r.ok then
      let buf1 := fillBuf c.buf r
      let out := bigEndianUint64 buf1            -- binary.BigEndian.Uint64(c.buf)
      match mutexUnlock lk1 with                 -- deferred c.Unlock()
      | .ret lk2 => some (out, ⟨lk2, buf1⟩, r.rest)
      | .panicked => some (.panicked, ⟨lk1, buf1⟩, r.rest)
      | .blocked => some (.blocked, ⟨lk1, buf1⟩, r.rest)
    else none                                    -- fatal error: the process ends
  | .panicked => some (.panicked, c, e)
  | .blocked => some (.blocked, c, e)

/-! ## `rand.Rand` and `Faker` -/

/-- What is behind a `*rand.Rand`, told apart by the source it wraps: a
`*lockedSource` (`New`), the standard source itself (`NewUnlocked`), a
`*cryptoRand` (`NewCrypto`), or a source of the caller (`NewCustom`), given by
its method table and its state. -/
inductive Rand (σ : Type) where
  | locked (r : lockedSource σ)
  | unlocked (s : σ)
  | crypto (c : cryptoRand)
  | custom (I : SourceImpl σ) (k : σ)

/-- The struct `Faker`, with what its field `Rand` points to. -/
structure Faker (σ : Type) where
  Rand : Rand σ

/-- The method `(*rand.Rand).Uint64`: the draw of the wrapped source. -/
def Rand.Uint64 {σ : Type} (P : StdSource σ) (x : Rand σ) (e : Reader) :
    Outcome Nat × Rand σ × Reader :=
  match x with
  | .locked r => ((r.Uint64 P.impl).1, .locked (r.Uint64 P.impl).2, e)
  | .unlocked s => ((P.impl.Uint64 s).1, .unlocked (P.impl.Uint64 s).2, e)
  | .crypto c => ((c.Uint64 e).1, .crypto (c.Uint64 e).2.1, (c.Uint64 e).2.2)
  | .custom I k => ((I.Uint64 k).1, .custom I (I.Uint64 k).2, e)

/-- The method `(*rand.Rand).Seed`: the reseed of the wrapped source. -/
def Rand.Seed {σ : Type} (P : StdSource σ) (x : Rand σ) (seed : Int) (e : Reader) :
    Outcome Unit × Rand σ × Reader :=
  match x with
  | .locked r => ((r.Seed P.impl seed).1, .locked (r.Seed P.impl seed).2, e)
  | .unlocked s => ((P.impl.Seed seed s).1, .unlocked (P.impl.Seed seed s).2, e)
  | .crypto c => ((c.Seed seed e).1, .crypto (c.Seed seed e).2.1, (c.Seed seed e).2.2)
  | .custom I k => ((I.Seed seed k).1, .custom I (I.Seed seed k).2, e)

/-- The call `f.Rand.Uint64()` on a `Faker`. -/
def Faker.Uint64 {σ : Type} (P : StdSource σ) (f : Faker σ) (e : Reader) :
    Outcome Nat × Faker σ × Reader :=
  ((f.Rand.Uint64 P e).1, ⟨(f.Rand.Uint64 P e).2.1⟩, (f.Rand.Uint64 P e).2.2)

/-- The call `f.Rand.Seed(seed)` on a `Faker`. -/
def Faker.Seed {σ : Type} (P : StdSource σ) (f : Faker σ) (seed : Int) (e : Reader) :
    Outcome Unit × Faker σ × Reader :=
  ((f.Rand.Seed P seed e).1, ⟨(f.Rand.Seed P seed e).2.1⟩, (f.Rand.Seed P seed e).2.2)

/-! ## Constructors -/

/-- The function `New`: a zero seed is replaced by what `binary.Read` leaves in the
variable (its error is discarded); the generator is a `lockedSource` with a
free mutex around `rand.NewSource(seed)`. -/
def New {σ : Type} (P : StdSource σ) (seed : Int) (e : Reader) :
    Outcome (Faker σ) × Reader :=
  if seed = 0 then
    let r := binaryRead seed e                   -- binary.Read(crand.Reader, ..., &seed)
    (.ret ⟨.locked ⟨false, P.NewSource r.seed⟩⟩, r.rest)
  else
    (.ret ⟨.locked ⟨false, P.NewSource seed⟩⟩, e)

/-- The function `NewUnlocked`: as `New`, without the `lockedSource`. -/
def NewUnlocked {σ : Type} (P : StdSource σ) (seed : Int) (e : Reader) :
    Outcome (Faker σ) × Reader :=
  if seed = 0 then
    let r := binaryRead seed e                   -- binary.Read(crand.Reader, ..., &seed)
    (.ret ⟨.unlocked (P.NewSource r.seed)⟩, r.rest)
  else
    (.ret ⟨.unlocked (P.NewSource seed)⟩, e)

/-- The function `NewCrypto`: a `cryptoRand` with a free mutex and `make([]byte, 8)`. -/
def NewCrypto {σ : Type} (e : Reader) : Outcome (Faker σ) × Reader :=
  (.ret ⟨.crypto ⟨false, List.replicate 8 0⟩⟩, e)

/-- The function `NewCustom`: the generator on the source the caller passes. -/
def NewCustom {σ : Type} (I : SourceImpl σ) (k : σ) (e : Reader) :
    Outcome (Faker σ) × Reader :=
  (.ret ⟨.custom I k⟩, e)

/-! ## The global generator -/

/-- The state the package-level functions act on.  Objects have addresses:
`fakers a` is the field `Rand` of the `Faker` at address `a` (the address of a
`rand.Rand`), `rands b` is the address of the source the `rand.Rand` at `b`
wraps, `sources c` is the source object at `c`.  Then the variable
`globalFaker` and `crypto/rand.Reader`. -/
structure World (σ : Type) where
  fakers : Nat → Nat
  rands : Nat → Nat
  sources : Nat → Rand σ
  globalFaker : Nat
  reader : Reader

/-- The address of the source the `Faker` at address `a` draws from. -/
def World.sourceOf {σ : Type} (W : World σ) (a : Nat) : Nat :=
  W.rands (W.fakers a)

/-- The `Faker` at address `a` with what its field `Rand` points to. -/
def World.heap {σ : Type} (W : World σ) (a : Nat) : Faker σ :=
  ⟨W.sources (W.sourceOf a)⟩

/-- The statement `globalFaker.Rand.Seed(seed)`: the reseed acts on the source
object behind the global generator. -/
def globalRandSeed {σ : Type} (P : StdSource σ) (seed : Int) (W : World σ) :
    Outcome Unit × World σ :=
  let r := (W.heap W.globalFaker).Seed P seed W.reader
  (r.1, { W with
    sources := Function.update W.sources (W.sourceOf W.globalFaker) r.2.1.Rand,
    reader := r.2.2 })

/-- The function `Seed`: a zero seed is replaced by what `binary.Read` leaves in the
variable (its error is discarded), then the global generator is reseeded. -/
def Seed {σ : Type} (P : StdSource σ) (seed : Int) (W : World σ) : Outcome Unit × World σ :=
  if seed = 0 then
    let r := binaryRead seed W.reader            -- binary.Read(crand.Reader, ..., &seed)
    globalRandSeed P r.seed { W with reader := r.rest }
  else
    globalRandSeed P seed W

/-- The function `SetGlobalFaker`: the assignment `globalFaker = faker`. -/
def SetGlobalFaker {σ : Type} (faker : Nat) (W : World σ) : Outcome Unit × World σ :=
  (.ret (), { W with globalFaker := faker })

/-! ## Sequences of calls -/

/-- The outcomes of `n` successive `Uint64` calls on a generator; the run ends at
the first call that does not return. -/
def Faker.draws {σ : Type} (P : StdSource σ) : Nat → Faker σ → Reader → List (Outcome Nat)
  | 0, _, _ => []
  | n + 1, f, e =>
    match f.Uint64 P e with
    | (.ret v, f1, e1) => .ret v :: Faker.draws P n f1 e1
    | (.panicked, _, _) => [.panicked]
    | (.blocked, _, _) => [.blocked]

/-- One call on a generator: a draw or a reseed. -/
inductive Op where
  | uint64
  | seed (k : Int)
  deriving DecidableEq

/-- The outcomes of a sequence of calls on a generator, `some v` for a draw
that returned `v` and `none` for a reseed that returned; the run ends at the
first call that does not return. -/
def Faker.run {σ : Type} (P : StdSource σ) : List Op → Faker σ → Reader →
    List (Outcome (Option Nat))
  | [], _, _ => []
  | .uint64 :: ops, f, e =>
    match f.Uint64 P e with
    | (.ret v, f1, e1) => .ret (some v) :: Faker.run P ops f1 e1
    | (.panicked, _, _) => [.panicked]
    | (.blocked, _, _) => [.blocked]
  | .seed k :: ops, f, e =>
    match f.Seed P k e with
    | (.ret _, f1, e1) => .ret none :: Faker.run P ops f1 e1
    | (.panicked, _, _) => [.panicked]
    | (.blocked, _, _) => [.blocked]

/-- The generator and the reader after a sequence of calls (the state the
last call left, also when it did not return). -/
def Faker.after {σ : Type} (P : StdSource σ) : List Op → Faker σ → Reader → Faker σ × Reader
  | [], f, e => (f, e)
  | .uint64 :: ops, f, e => Faker.after P ops (f.Uint64 P e).2.1 (f.Uint64 P e).2.2
  | .seed k :: ops, f, e => Faker.after P ops (f.Seed P k e).2.1 (f.Seed P k e).2.2

/-! ## Sample implementations, for concrete runs -/

/-- A 64-bit linear congruential generator behind the `StdSource` interface. -/
def lcg64 : StdSource Nat where
  NewSource seed := (seed % 2 ^ 64).toNat
  Uint64 st :=
    ((st * 6364136223846793005 + 1442695040888963407) % 2 ^ 64,
     (st * 6364136223846793005 + 1442695040888963407) % 2 ^ 64)
  Seed seed _ := (seed % 2 ^ 64).toNat

/-- A generator on the standard source that no call is inside of: a
`lockedSource` with a free mutex, or the unlocked source. -/
def Faker.idlePRNG {σ : Type} (f : Faker σ) : Bool :=
  match f.Rand with
  | .locked r => !r.lk
  | .unlocked _ => true
  | .crypto _ => false
  | .custom _ _ => false

/-- A world for concrete runs: the `Faker` at address `a` has its own
`rand.Rand` and its own source, a locked standard source with a free mutex in
state `a + 7`; the global generator is the one at address 0, and the reader is
exhausted. -/
def sampleWorld : World Nat where
  fakers a := a
  rands b := b
  sources c := .locked ⟨false, c + 7⟩
  globalFaker := 0
  reader := []

/-- As `sampleWorld`, but the `Faker` at address 1 was built as
`&Faker{Rand: p.Rand}` from the `Faker` `p` at address 0: the two share their
`rand.Rand`. -/
def sharedWorld : World Nat where
  fakers a := if a = 1 then 0 else a
  rands b := b
  sources c := .locked ⟨false, c + 7⟩
  globalFaker := 0
  reader := []

/-! ## Goroutines calling `lockedSource.Uint64` concurrently -/

/-- Where a goroutine stands in `(*lockedSource).Uint64`: between two calls
(before `r.lk.Lock()`), past the `Lock` (before `n = r.src.Uint64()`), or past
the draw of `n` (before `r.lk.Unlock()` and the return). -/
inductive PC where
  | idle
  | holding
  | drawn (n : Nat)
  deriving DecidableEq

/-- A goroutine that calls `Uint64` on the shared generator `todo` more times
(the call it is in included) and has had the values `got` returned so far. -/
structure Goroutine where
  pc : PC
  todo : Nat
  got : List Nat
  deriving DecidableEq

/-- The next statement of `(*lockedSource).Uint64` run by a goroutine on the
shared `lockedSource`, whose wrapped source is the standard one: `Lock` (no
step is taken while the mutex is held), the draw, or `Unlock` and the return.
A goroutine with no call left does nothing. -/
def Goroutine.step {σ : Type} (P : StdSource σ) (r : lockedSource σ) (g : Goroutine) :
    lockedSource σ × Goroutine :=
  match g.pc with
  | .idle =>
    if g.todo = 0 then (r, g)
    else
      match mutexLock r.lk with                  -- r.lk.Lock()
      | .ret lk1 => (⟨lk1, r.src⟩, { g with pc := .holding })
      | .panicked => (r, g)
      | .blocked => (r, g)
  | .holding =>
    match P.impl.Uint64 r.src with               -- n = r.src.Uint64()
    | (.ret n, s1) => (⟨r.lk, s1⟩, { g with pc := .drawn n })
    | (.panicked, s1) => (⟨r.lk, s1⟩, g)
    | (.blocked, s1) => (⟨r.lk, s1⟩, g)
  | .drawn n =>
    match mutexUnlock r.lk with                  -- r.lk.Unlock(); return
    | .ret lk2 => (⟨lk2, r.src⟩, ⟨.idle, g.todo - 1, g.got ++ [n]⟩)
    | .panicked => (r, g)
    | .blocked => (r, g)

/-- One `lockedSource` and the goroutines that share it. -/
structure Concurrent (σ : Type) where
  r : lockedSource σ
  gs : List Goroutine

/-- The scheduler lets goroutine `i` run its next statement. -/
def Concurrent.step {σ : Type} (P : StdSource σ) (C : Concurrent σ) (i : Nat) :
    Concurrent σ :=
  match C.gs[i]? with
  | none => C
  | some g => ⟨(g.step P C.r).1, C.gs.set i (g.step P C.r).2⟩

/-- An interleaving: the goroutines run one statement at a time in the order
the schedule names them. -/
def Concurrent.run {σ : Type} (P : StdSource σ) (C : Concurrent σ) (sched : List Nat) :
    Concurrent σ :=
  sched.foldl (Concurrent.step P) C

/-- The start: `N` goroutines, each about to call `Uint64` `M` times on `r`. -/
def Concurrent.start {σ : Type} (r : lockedSource σ) (N M : Nat) : Concurrent σ :=
  ⟨r, List.replicate N ⟨.idle, M, []⟩⟩

/-- Every goroutine has returned from its last call. -/
def Concurrent.finished {σ : Type} (C : Concurrent σ) : Bool :=
  C.gs.all (fun g => decide (g.pc = .idle ∧ g.todo = 0))

/-- The number of goroutines between `Lock` and `Unlock`. -/
def busy : List Goroutine → Nat
  | [] => 0
  | g :: gs => (if g.pc = .idle then 0 else 1) + busy gs

/-- The value a goroutine has drawn and not yet returned. -/
def PC.pending : PC → List Nat
  | .drawn n => [n]
  | _ => []

/-- The values a goroutine has drawn: those returned and the pending one. -/
def Goroutine.vals (g : Goroutine) : List Nat :=
  g.got ++ g.pc.pending

/-- The values drawn by all goroutines. -/
def valsOf : List Goroutine → List Nat
  | [] => []
  | g :: gs => g.vals ++ valsOf gs

/-- The statements a goroutine has passed in the call it is in. -/
def PC.offset : PC → Nat
  | .idle => 0
  | .holding => 1
  | .drawn _ => 2

/-- The statements the goroutines have still to run. -/
def work : List Goroutine → Nat
  | [] => 0
  | g :: gs => (3 * g.todo - g.pc.offset) + work gs

/-- The state of the standard source after `n` draws. -/
def StdSource.advance {σ : Type} (P : StdSource σ) : Nat → σ → σ
  | 0, st => st
  | n + 1, st => P.advance n (P.Uint64 st).2

/-- The invariant of every interleaving started on a source in state `st0`
with `M` calls for each goroutine: the source has advanced by as many draws as
the goroutines hold values, these values are the stream of the source up to a
permutation, the mutex is held exactly when one goroutine is between `Lock`
and `Unlock`, and no goroutine has lost count of its calls. -/
structure Inv {σ : Type} (P : StdSource σ) (st0 : σ) (M : Nat) (C : Concurrent σ) : Prop where
  src : C.r.src = P.advance (valsOf C.gs).length st0
  perm : (valsOf C.gs).Perm (P.stream (valsOf C.gs).length st0)
  lock : busy C.gs = if C.r.lk then 1 else 0
  calls : ∀ g ∈ C.gs, g.got.length + g.todo = M ∧ (g.pc ≠ .idle → 0 < g.todo)

/-! ## Step lemmas -/

theorem readFull_length_le (n : Nat) (e : Reader) : (readFull n e).bytes.length ≤ n := by
  induction n generalizing e with
  | zero => simp [readFull]
  | succ n ih =>
    match e with
    | [] => simp [readFull]
    | none :: e => simp [readFull]
    | some b :: e => simpa [readFull] using ih e

theorem readFull_ok_length (n : Nat) (e : Reader) (h : (readFull n e).ok = true) :
    (readFull n e).bytes.length = n := by
  induction n generalizing e with
  | zero => simp [readFull]
  | succ n ih =>
    match e, h with
    | [], h => simp [readFull] at h
    | none :: e, h => simp [readFull] at h
    | some b :: e, h =>
      simp only [readFull] at h ⊢
      simpa using ih e h

theorem stream_length {σ : Type} (P : StdSource σ) (n : Nat) (st : σ) :
    (P.stream n st).length = n := by
  induction n generalizing st with
  | zero => rfl
  | succ n ih => simp [StdSource.stream, ih]

theorem lockedSource_Uint64_idle {σ : Type} (P : StdSource σ) (st : σ) :
    lockedSource.Uint64 P.impl ⟨false, st⟩ = (.ret (P.Uint64 st).1, ⟨false, (P.Uint64 st).2⟩) :=
  rfl

theorem lockedSource_Seed_idle {σ : Type} (P : StdSource σ) (st : σ) (k : Int) :
    lockedSource.Seed P.impl ⟨false, st⟩ k = (.ret (), ⟨false, P.Seed k st⟩) :=
  rfl

theorem Faker_Uint64_locked {σ : Type} (P : StdSource σ) (st : σ) (e : Reader) :
    Faker.Uint64 P ⟨.locked ⟨false, st⟩⟩ e
      = (.ret (P.Uint64 st).1, ⟨.locked ⟨false, (P.Uint64 st).2⟩⟩, e) :=
  rfl

theorem Faker_Uint64_unlocked {σ : Type} (P : StdSource σ) (st : σ) (e : Reader) :
    Faker.Uint64 P ⟨.unlocked st⟩ e = (.ret (P.Uint64 st).1, ⟨.unlocked (P.Uint64 st).2⟩, e) :=
  rfl

theorem Faker_Seed_locked {σ : Type} (P : StdSource σ) (st : σ) (k : Int) (e : Reader) :
    Faker.Seed P ⟨.locked ⟨false, st⟩⟩ k e = (.ret (), ⟨.locked ⟨false, P.Seed k st⟩⟩, e) :=
  rfl

theorem Faker_Seed_unlocked {σ : Type} (P : StdSource σ) (st : σ) (k : Int) (e : Reader) :
    Faker.Seed P ⟨.unlocked st⟩ k e = (.ret (), ⟨.unlocked (P.Seed k st)⟩, e) :=
  rfl

theorem draws_locked {σ : Type} (P : StdSource σ) (n : Nat) (st : σ) (e : Reader) :
    Faker.draws P n ⟨.locked ⟨false, st⟩⟩ e = (P.stream n st).map .ret := by
  induction n generalizing st e with
  | zero => rfl
  | succ n ih =>
    simp only [Faker.draws, Faker_Uint64_locked, StdSource.stream, List.map_cons, ih]

theorem draws_unlocked {σ : Type} (P : StdSource σ) (n : Nat) (st : σ) (e : Reader) :
    Faker.draws P n ⟨.unlocked st⟩ e = (P.stream n st).map .ret := by
  induction n generalizing st e with
  | zero => rfl
  | succ n ih =>
    simp only [Faker.draws, Faker_Uint64_unlocked, StdSource.stream, List.map_cons, ih]

theorem New_of_ne_zero {σ : Type} (P : StdSource σ) (s : Int) (hs : s ≠ 0) (e : Reader) :
    New P s e = (.ret ⟨.locked ⟨false, P.NewSource s⟩⟩, e) := by
  simp [New, hs]

theorem NewUnlocked_of_ne_zero {σ : Type} (P : StdSource σ) (s : Int) (hs : s ≠ 0)
    (e : Reader) : NewUnlocked P s e = (.ret ⟨.unlocked (P.NewSource s)⟩, e) := by
  simp [NewUnlocked, hs]

theorem binaryRead_ok (seed : Int) (e : Reader) (b : List Byte) (e' : Reader)
    (h : readFull 8 e = ⟨b, true, e'⟩) :
    binaryRead seed e = ⟨int64OfUint64 (beValue b), true, e'⟩ := by
  simp [binaryRead, h]

theorem binaryRead_fail (seed : Int) (e : Reader) (h : (readFull 8 e).ok = false) :
    binaryRead seed e = ⟨seed, false, (readFull 8 e).rest⟩ := by
  simp [binaryRead, h]

theorem New_zero_autoseed_aux {σ : Type} (P : StdSource σ) (e : Reader) (b : List Byte)
    (e' : Reader) (h : readFull 8 e = ⟨b, true, e'⟩) :
    (New P 0 e).1 = .ret ⟨.locked ⟨false, P.NewSource (int64OfUint64 (beValue b))⟩⟩ := by
  simp [New, binaryRead_ok 0 e b e' h]

theorem globalRandSeed_fst {σ : Type} (P : StdSource σ) (seed : Int) (W : World σ) :
    (globalRandSeed P seed W).1 = ((W.heap W.globalFaker).Seed P seed W.reader).1 :=
  rfl

theorem globalRandSeed_heap_global {σ : Type} (P : StdSource σ) (seed : Int) (W : World σ) :
    (globalRandSeed P seed W).2.heap W.globalFaker
      = ((W.heap W.globalFaker).Seed P seed W.reader).2.1 := by
  simp [globalRandSeed, World.heap, World.sourceOf]

/-! ## Determinism and auto-seeding of the constructors -/

/-- C1. For a seed `s ≠ 0`, `New` returns, reads no entropy, and builds the same
generator whatever the entropy reader holds; the first `n` draws of two such
generators are the same `n` returned values, the stream of the standard source
from `NewSource s`.  The same holds for `NewUnlocked`. -/
theorem New_deterministic {σ : Type} (P : StdSource σ) (s : Int) (hs : s ≠ 0) (n : Nat)
    (e₁ e₂ d₁ d₂ : Reader) :
    (∃ f₁ f₂, New P s e₁ = (.ret f₁, e₁) ∧ New P s e₂ = (.ret f₂, e₂) ∧
        f₁.draws P n d₁ = f₂.draws P n d₂ ∧
        f₁.draws P n d₁ = (P.stream n (P.NewSource s)).map .ret ∧
        (f₁.draws P n d₁).length = n) ∧
    (∃ g₁ g₂, NewUnlocked P s e₁ = (.ret g₁, e₁) ∧ NewUnlocked P s e₂ = (.ret g₂, e₂) ∧
        g₁.draws P n d₁ = g₂.draws P n d₂ ∧
        g₁.draws P n d₁ = (P.stream n (P.NewSource s)).map .ret ∧
        (g₁.draws P n d₁).length = n) := by
  refine ⟨⟨_, _, New_of_ne_zero P s hs e₁, New_of_ne_zero P s hs e₂, ?_, ?_, ?_⟩,
    ⟨_, _, NewUnlocked_of_ne_zero P s hs e₁, NewUnlocked_of_ne_zero P s hs e₂, ?_, ?_, ?_⟩⟩
  · rw [draws_locked, draws_locked]
  · rw [draws_locked]
  · rw [draws_locked, List.length_map, stream_length]
  · rw [draws_unlocked, draws_unlocked]
  · rw [draws_unlocked]
  · rw [draws_unlocked, List.length_map, stream_length]

/-- Witness of C1: the linear congruential source, seed 42, three draws, one
reader empty and the other not. -/
theorem New_deterministic_witness :
    (42 : Int) ≠ 0 ∧
    ((∃ f₁ f₂, New lcg64 42 [] = (.ret f₁, []) ∧
        New lcg64 42 [some 1, none] = (.ret f₂, [some 1, none]) ∧
        f₁.draws lcg64 3 [] = f₂.draws lcg64 3 [none] ∧
        f₁.draws lcg64 3 [] = (lcg64.stream 3 (lcg64.NewSource 42)).map .ret ∧
        (f₁.draws lcg64 3 []).length = 3) ∧
    (∃ g₁ g₂, NewUnlocked lcg64 42 [] = (.ret g₁, []) ∧
        NewUnlocked lcg64 42 [some 1, none] = (.ret g₂, [some 1, none]) ∧
        g₁.draws lcg64 3 [] = g₂.draws lcg64 3 [none] ∧
        g₁.draws lcg64 3 [] = (lcg64.stream 3 (lcg64.NewSource 42)).map .ret ∧
        (g₁.draws lcg64 3 []).length = 3)) :=
  ⟨by decide, New_deterministic lcg64 42 (by decide) 3 [] [some 1, none] [] [none]⟩

/-- C2. When the reader supplies eight bytes `b`, `New 0` returns the generator
whose standard source is `NewSource k`, with `k` the big-endian `int64` value
of `b`, and has consumed exactly those bytes.  That is the generator `New k`
builds: from the same reader for every `k`, and from any reader when `k ≠ 0`.
The same holds for `NewUnlocked`. -/
theorem New_zero_autoseed {σ : Type} (P : StdSource σ) (e : Reader) (b : List Byte)
    (e' : Reader) (h : readFull 8 e = ⟨b, true, e'⟩) :
    (New P 0 e = (.ret ⟨.locked ⟨false, P.NewSource (int64OfUint64 (beValue b))⟩⟩, e') ∧
      (New P 0 e).1 = (New P (int64OfUint64 (beValue b)) e).1 ∧
      (int64OfUint64 (beValue b) ≠ 0 →
        ∀ e'', (New P 0 e).1 = (New P (int64OfUint64 (beValue b)) e'').1)) ∧
    (NewUnlocked P 0 e = (.ret ⟨.unlocked (P.NewSource (int64OfUint64 (beValue b)))⟩, e') ∧
      (NewUnlocked P 0 e).1 = (NewUnlocked P (int64OfUint64 (beValue b)) e).1 ∧
      (int64OfUint64 (beValue b) ≠ 0 →
        ∀ e'', (NewUnlocked P 0 e).1 = (NewUnlocked P (int64OfUint64 (beValue b)) e'').1)) := by
  have hN : New P 0 e
      = (.ret ⟨.locked ⟨false, P.NewSource (int64OfUint64 (beValue b))⟩⟩, e') := by
    simp [New, binaryRead_ok 0 e b e' h]
  have hU : NewUnlocked P 0 e
      = (.ret ⟨.unlocked (P.NewSource (int64OfUint64 (beValue b)))⟩, e') := by
    simp [NewUnlocked, binaryRead_ok 0 e b e' h]
  refine ⟨⟨hN, ?_, ?_⟩, ⟨hU, ?_, ?_⟩⟩
  · by_cases hk : int64OfUint64 (beValue b) = 0
    · rw [hk]
    · rw [hN, New_of_ne_zero P _ hk]
  · intro hk e''
    rw [hN, New_of_ne_zero P _ hk]
  · by_cases hk : int64OfUint64 (beValue b) = 0
    · rw [hk]
    · rw [hU, NewUnlocked_of_ne_zero P _ hk]
  · intro hk e''
    rw [hU, NewUnlocked_of_ne_zero P _ hk]

/-- Witness of C2: the reader holds the bytes `0,0,0,0,0,0,1,2` and then fails. -/
theorem New_zero_autoseed_witness :
    readFull 8 [some 0, some 0, some 0, some 0, some 0, some 0, some 1, some 2, none]
      = ⟨[0, 0, 0, 0, 0, 0, 1, 2], true, [none]⟩ ∧
    New lcg64 0 [some 0, some 0, some 0, some 0, some 0, some 0, some 1, some 2, none]
      = (.ret ⟨.locked ⟨false, lcg64.NewSource (int64OfUint64 (beValue [0, 0, 0, 0, 0, 0, 1, 2]))⟩⟩,
          [none]) ∧
    int64OfUint64 (beValue [0, 0, 0, 0, 0, 0, 1, 2]) = 258 :=
  ⟨by decide,
   (New_zero_autoseed lcg64
      [some 0, some 0, some 0, some 0, some 0, some 0, some 1, some 2, none]
      [0, 0, 0, 0, 0, 0, 1, 2] [none] (by decide)).1.1,
   by decide⟩

/-! ## Failure of the entropy read -/

/-- C3, as stated, fails: with an exhausted reader the read of the seed bytes
fails, and `New 0` still returns a generator, seeded with the literal 0; `Seed 0`
returns as well and the global generator is reseeded with 0. -/
theorem New_zero_entropy_failure_returns :
    (readFull 8 ([] : Reader)).ok = false ∧
    New lcg64 0 [] = (.ret ⟨.locked ⟨false, lcg64.NewSource 0⟩⟩, []) ∧
    NewUnlocked lcg64 0 [] = (.ret ⟨.unlocked (lcg64.NewSource 0)⟩, []) ∧
    (Seed lcg64 0 sampleWorld).1 = .ret () ∧
    (Seed lcg64 0 sampleWorld).2.heap sampleWorld.globalFaker
      = ⟨.locked ⟨false, lcg64.NewSource 0⟩⟩ := by
  refine ⟨by decide, rfl, rfl, by decide, rfl⟩

/-- C3, amended. When the reader cannot supply the eight seed bytes, the error of
the read is discarded: `New 0` and `NewUnlocked 0` return a generator built on
`NewSource 0`, and `Seed 0` is `globalFaker.Rand.Seed(0)`, which on a locked
generator with a free mutex returns and reseeds it with 0. -/
theorem entropy_failure_is_silent {σ : Type} (P : StdSource σ) (W : World σ)
    (h : (readFull 8 W.reader).ok = false) :
    New P 0 W.reader = (.ret ⟨.locked ⟨false, P.NewSource 0⟩⟩, (readFull 8 W.reader).rest) ∧
    NewUnlocked P 0 W.reader
      = (.ret ⟨.unlocked (P.NewSource 0)⟩, (readFull 8 W.reader).rest) ∧
    Seed P 0 W = globalRandSeed P 0 { W with reader := (readFull 8 W.reader).rest } ∧
    (∀ st, W.heap W.globalFaker = ⟨.locked ⟨false, st⟩⟩ →
      (Seed P 0 W).1 = .ret () ∧
      (Seed P 0 W).2.heap W.globalFaker = ⟨.locked ⟨false, P.Seed 0 st⟩⟩) := by
  have hS : Seed P 0 W = globalRandSeed P 0 { W with reader := (readFull 8 W.reader).rest } := by
    simp [Seed, binaryRead_fail 0 W.reader h]
  refine ⟨by simp [New, binaryRead_fail 0 W.reader h],
    by simp [NewUnlocked, binaryRead_fail 0 W.reader h], hS, ?_⟩
  intro st hst
  rw [hS]
  have hW : ({ W with reader := (readFull 8 W.reader).rest } : World σ).heap W.globalFaker
      = ⟨.locked ⟨false, st⟩⟩ := hst
  refine ⟨?_, ?_⟩
  · rw [globalRandSeed_fst, hW, Faker_Seed_locked]
  · rw [globalRandSeed_heap_global, hW, Faker_Seed_locked]

/-- Witness of C3 amended: the sample world, whose reader is exhausted. -/
theorem entropy_failure_is_silent_witness :
    (readFull 8 sampleWorld.reader).ok = false ∧
    New lcg64 0 sampleWorld.reader
      = (.ret ⟨.locked ⟨false, lcg64.NewSource 0⟩⟩, (readFull 8 sampleWorld.reader).rest) :=
  ⟨by decide, (entropy_failure_is_silent lcg64 sampleWorld (by decide)).1⟩

/-! ## Reseeding the global generator -/

theorem Faker_Seed_idle {σ : Type} (P : StdSource σ) (hP : P.SeedResets) (f : Faker σ)
    (hf : f.idlePRNG = true) (k : Int) (e : Reader) :
    (f.Seed P k e).1 = .ret () ∧ (f.Seed P k e).2.2 = e ∧
    ∀ n d, (f.Seed P k e).2.1.draws P n d = (P.stream n (P.NewSource k)).map .ret := by
  obtain ⟨x⟩ := f
  cases x with
  | locked r =>
    obtain ⟨lk, st⟩ := r
    have hlk : lk = false := by simpa [Faker.idlePRNG] using hf
    subst hlk
    rw [Faker_Seed_locked]
    refine ⟨rfl, rfl, fun n d => ?_⟩
    simp only [draws_locked, hP k st]
  | unlocked st =>
    rw [Faker_Seed_unlocked]
    refine ⟨rfl, rfl, fun n d => ?_⟩
    simp only [draws_unlocked, hP k st]
  | crypto c => simp [Faker.idlePRNG] at hf
  | custom I k => simp [Faker.idlePRNG] at hf

theorem globalRandSeed_idle {σ : Type} (P : StdSource σ) (hP : P.SeedResets) (W : World σ)
    (hidle : (W.heap W.globalFaker).idlePRNG = true) (k : Int) (n : Nat) (d : Reader) :
    (globalRandSeed P k W).1 = .ret () ∧
    (globalRandSeed P k W).2.globalFaker = W.globalFaker ∧
    (globalRandSeed P k W).2.reader = W.reader ∧
    ((globalRandSeed P k W).2.heap W.globalFaker).draws P n d
      = (P.stream n (P.NewSource k)).map .ret := by
  have h := Faker_Seed_idle P hP (W.heap W.globalFaker) hidle k W.reader
  refine ⟨h.1, rfl, h.2.1, ?_⟩
  rw [globalRandSeed_heap_global]
  exact h.2.2 n d

/-- C4. Let the global generator be built on the standard source, in any state
of that source, with no call inside it, and let `Seed` of the standard source
reset it as its contract says.  For `s ≠ 0`, `Seed s` returns and the draws
of the global generator are then those of a generator fresh from `New s`.  For
`s = 0` with seed bytes `b` in the reader, `Seed 0` returns and the draws are
those of the generator `New k` builds, `k` the big-endian `int64` value of `b`
(from the same reader for every `k`, from any reader when `k ≠ 0`). -/
theorem Seed_reseeds_global {σ : Type} (P : StdSource σ) (hP : P.SeedResets) (W : World σ)
    (hidle : (W.heap W.globalFaker).idlePRNG = true) (n : Nat) (d d' : Reader) :
    (∀ s : Int, s ≠ 0 → ∀ e : Reader, ∃ f, New P s e = (.ret f, e) ∧
      (Seed P s W).1 = .ret () ∧
      ((Seed P s W).2.heap (Seed P s W).2.globalFaker).draws P n d = f.draws P n d' ∧
      f.draws P n d' = (P.stream n (P.NewSource s)).map .ret) ∧
    (∀ (b : List Byte) (e' : Reader), readFull 8 W.reader = ⟨b, true, e'⟩ →
      ∃ f, (New P (int64OfUint64 (beValue b)) W.reader).1 = .ret f ∧
        (int64OfUint64 (beValue b) ≠ 0 →
          ∀ e : Reader, New P (int64OfUint64 (beValue b)) e = (.ret f, e)) ∧
        (Seed P 0 W).1 = .ret () ∧
        (Seed P 0 W).2.reader = e' ∧
        ((Seed P 0 W).2.heap (Seed P 0 W).2.globalFaker).draws P n d = f.draws P n d' ∧
        f.draws P n d' = (P.stream n (P.NewSource (int64OfUint64 (beValue b)))).map .ret) := by
  constructor
  · intro s hs e
    have hS : Seed P s W = globalRandSeed P s W := by simp [Seed, hs]
    have h := globalRandSeed_idle P hP W hidle s n d
    refine ⟨_, New_of_ne_zero P s hs e, ?_, ?_, ?_⟩
    · rw [hS]; exact h.1
    · rw [hS, h.2.1, h.2.2.2, draws_locked]
    · rw [draws_locked]
  · intro b e' hb
    have hS : Seed P 0 W
        = globalRandSeed P (int64OfUint64 (beValue b)) { W with reader := e' } := by
      simp [Seed, binaryRead_ok 0 W.reader b e' hb]
    have h := globalRandSeed_idle P hP { W with reader := e' } hidle
      (int64OfUint64 (beValue b)) n d
    have hN : (New P (int64OfUint64 (beValue b)) W.reader).1
        = .ret ⟨.locked ⟨false, P.NewSource (int64OfUint64 (beValue b))⟩⟩ := by
      by_cases hk : int64OfUint64 (beValue b) = 0
      · rw [hk, (New_zero_autoseed_aux P W.reader b e' hb), hk]
      · rw [New_of_ne_zero P _ hk]
    refine ⟨_, hN, fun hk e => New_of_ne_zero P _ hk e, ?_, ?_, ?_, ?_⟩
    · rw [hS]; exact h.1
    · rw [hS]; exact h.2.2.1
    · rw [hS, h.2.1]
      rw [draws_locked]
      exact h.2.2.2
    · rw [draws_locked]

/-- Witness of C4: the sample world with the linear congruential source, whose
`Seed` is `NewSource`. -/
theorem Seed_reseeds_global_witness :
    lcg64.SeedResets ∧ (sampleWorld.heap sampleWorld.globalFaker).idlePRNG = true ∧
    ∃ f, New lcg64 5 [] = (.ret f, []) ∧
      (Seed lcg64 5 sampleWorld).1 = .ret () ∧
      ((Seed lcg64 5 sampleWorld).2.heap (Seed lcg64 5 sampleWorld).2.globalFaker).draws
          lcg64 2 [] = f.draws lcg64 2 [] ∧
      f.draws lcg64 2 [] = (lcg64.stream 2 (lcg64.NewSource 5)).map .ret :=
  ⟨fun _ _ => rfl, by decide,
   (Seed_reseeds_global lcg64 (fun _ _ => rfl) sampleWorld (by decide) 2 [] []).1 5
     (by decide) []⟩

/-! ## The crypto source -/

/-- C5. `cryptoRand.Seed` returns for every seed and every state, leaves the
buffer, the mutex and the entropy reader as they were, so the `Uint64` that
follows is the `Uint64` without the reseed; the same through `Faker`. -/
theorem cryptoRand_Seed_noop {σ : Type} (P : StdSource σ) (seed : Int) (c : cryptoRand)
    (e : Reader) :
    c.Seed seed e = (.ret (), c, e) ∧
    (c.Seed seed e).2.1.Uint64 (c.Seed seed e).2.2 = c.Uint64 e ∧
    Faker.Seed P ⟨.crypto c⟩ seed e = (.ret (), ⟨.crypto c⟩, e) ∧
    Faker.Uint64 P (Faker.Seed P ⟨.crypto c⟩ seed e).2.1 (Faker.Seed P ⟨.crypto c⟩ seed e).2.2
      = Faker.Uint64 P ⟨.crypto c⟩ e :=
  ⟨rfl, rfl, rfl, rfl⟩

theorem beValue_eight (b0 b1 b2 b3 b4 b5 b6 b7 : Byte) :
    beValue [b0, b1, b2, b3, b4, b5, b6, b7]
      = b0.val * 2 ^ 56 + b1.val * 2 ^ 48 + b2.val * 2 ^ 40 + b3.val * 2 ^ 32
        + b4.val * 2 ^ 24 + b5.val * 2 ^ 16 + b6.val * 2 ^ 8 + b7.val := by
  simp only [beValue, List.take, List.foldl]
  omega

theorem fillBuf_length (buf : List Byte) (e : Reader) :
    (fillBuf buf (readFull buf.length e)).length = buf.length := by
  have h := readFull_length_le buf.length e
  simp only [fillBuf, List.length_append, List.length_drop]
  omega

theorem cryptoRand_Uint64_free (c : cryptoRand) (hlk : c.lk = false) (e : Reader) :
    c.Uint64 e = (bigEndianUint64 (fillBuf c.buf (readFull c.buf.length e)),
      ⟨false, fillBuf c.buf (readFull c.buf.length e)⟩, (readFull c.buf.length e).rest) := by
  simp [cryptoRand.Uint64, mutexLock, mutexUnlock, hlk]

theorem cryptoRand_Uint64_ok (c : cryptoRand) (hlk : c.lk = false) (hbuf : c.buf.length = 8)
    (e : Reader) (b : List Byte) (e' : Reader) (h : readFull 8 e = ⟨b, true, e'⟩) :
    c.Uint64 e = (.ret (beValue b), ⟨false, b⟩, e') := by
  have hb : b.length = 8 := by
    have := readFull_ok_length 8 e (by rw [h])
    rw [h] at this
    exact this
  have hfill : fillBuf c.buf (readFull 8 e) = b := by
    rw [h]
    simp [fillBuf, hb, List.drop_eq_nil_of_le (le_of_eq hbuf)]
  rw [cryptoRand_Uint64_free c hlk, hbuf, hfill, h]
  simp [bigEndianUint64, hb]

theorem crypto_after_inv {σ : Type} (P : StdSource σ) (ops : List Op) (c : cryptoRand)
    (e : Reader) (hlk : c.lk = false) (hbuf : c.buf.length = 8) :
    ∃ c', (Faker.after P ops ⟨.crypto c⟩ e).1 = ⟨.crypto c'⟩ ∧ c'.lk = false ∧
      c'.buf.length = 8 := by
  induction ops generalizing c e with
  | nil => exact ⟨c, rfl, hlk, hbuf⟩
  | cons op ops ih =>
    cases op with
    | uint64 =>
      have hstep : (Faker.Uint64 P ⟨.crypto c⟩ e).2.1
          = ⟨.crypto ⟨false, fillBuf c.buf (readFull c.buf.length e)⟩⟩ := by
        simp [Faker.Uint64, Rand.Uint64, cryptoRand_Uint64_free c hlk]
      simp only [Faker.after, hstep]
      exact ih _ _ rfl (by rw [fillBuf_length]; exact hbuf)
    | seed k =>
      simp only [Faker.after]
      exact ih c e hlk hbuf

/-- C6. After `NewCrypto` and any sequence of draws and reseeds, whatever the
reader delivered during them, a `Uint64` whose read yields the bytes `b0 … b7`
returns `b0·2^56 + b1·2^48 + … + b7`, and has consumed exactly those bytes. -/
theorem NewCrypto_draw_bigEndian {σ : Type} (P : StdSource σ) (ops : List Op) (e₀ : Reader)
    (b0 b1 b2 b3 b4 b5 b6 b7 : Byte) (e' : Reader)
    (h : readFull 8 (Faker.after P ops ⟨.crypto ⟨false, List.replicate 8 0⟩⟩ e₀).2
      = ⟨[b0, b1, b2, b3, b4, b5, b6, b7], true, e'⟩) :
    (NewCrypto e₀ : Outcome (Faker σ) × Reader)
      = (.ret ⟨.crypto ⟨false, List.replicate 8 0⟩⟩, e₀) ∧
    (Faker.Uint64 P (Faker.after P ops ⟨.crypto ⟨false, List.replicate 8 0⟩⟩ e₀).1
        (Faker.after P ops ⟨.crypto ⟨false, List.replicate 8 0⟩⟩ e₀).2).1
      = .ret (b0.val * 2 ^ 56 + b1.val * 2 ^ 48 + b2.val * 2 ^ 40 + b3.val * 2 ^ 32
        + b4.val * 2 ^ 24 + b5.val * 2 ^ 16 + b6.val * 2 ^ 8 + b7.val) ∧
    (Faker.Uint64 P (Faker.after P ops ⟨.crypto ⟨false, List.replicate 8 0⟩⟩ e₀).1
        (Faker.after P ops ⟨.crypto ⟨false, List.replicate 8 0⟩⟩ e₀).2).2.2 = e' := by
  obtain ⟨c', hc', hlk, hbuf⟩ :=
    crypto_after_inv P ops ⟨false, List.replicate 8 0⟩ e₀ rfl (by simp)
  have hU := cryptoRand_Uint64_ok c' hlk hbuf _ _ e' h
  refine ⟨rfl, ?_, ?_⟩
  · rw [hc']
    simp only [Faker.Uint64, Rand.Uint64]
    rw [hU, beValue_eight]
  · rw [hc']
    simp only [Faker.Uint64, Rand.Uint64]
    rw [hU]

/-- Witness of C6: a draw, a reseed, then the draw that reads `0,0,0,0,0,0,1,2`. -/
theorem NewCrypto_draw_bigEndian_witness :
    readFull 8 (Faker.after lcg64 [.uint64, .seed 3] ⟨.crypto ⟨false, List.replicate 8 0⟩⟩
        [some 9, some 9, some 9, some 9, some 9, some 9, some 9, some 9,
         some 0, some 0, some 0, some 0, some 0, some 0, some 1, some 2]).2
      = ⟨[0, 0, 0, 0, 0, 0, 1, 2], true, []⟩ ∧
    (Faker.Uint64 lcg64
        (Faker.after lcg64 [.uint64, .seed 3] ⟨.crypto ⟨false, List.replicate 8 0⟩⟩
          [some 9, some 9, some 9, some 9, some 9, some 9, some 9, some 9,
           some 0, some 0, some 0, some 0, some 0, some 0, some 1, some 2]).1
        (Faker.after lcg64 [.uint64, .seed 3] ⟨.crypto ⟨false, List.replicate 8 0⟩⟩
          [some 9, some 9, some 9, some 9, some 9, some 9, some 9, some 9,
           some 0, some 0, some 0, some 0, some 0, some 0, some 1, some 2]).2).1
      = .ret ((0 : Byte).val * 2 ^ 56 + (0 : Byte).val * 2 ^ 48 + (0 : Byte).val * 2 ^ 40
        + (0 : Byte).val * 2 ^ 32 + (0 : Byte).val * 2 ^ 24 + (0 : Byte).val * 2 ^ 16
        + (1 : Byte).val * 2 ^ 8 + (2 : Byte).val) :=
  ⟨by decide,
   (NewCrypto_draw_bigEndian lcg64 [.uint64, .seed 3]
      [some 9, some 9, some 9, some 9, some 9, some 9, some 9, some 9,
       some 0, some 0, some 0, some 0, some 0, some 0, some 1, some 2]
      0 0 0 0 0 0 1 2 [] (by decide)).2.1⟩

/-! ## Locked and unlocked generators -/

theorem run_locked_eq_unlocked {σ : Type} (P : StdSource σ) (ops : List Op) (st : σ)
    (d₁ d₂ : Reader) :
    Faker.run P ops ⟨.locked ⟨false, st⟩⟩ d₁ = Faker.run P ops ⟨.unlocked st⟩ d₂ := by
  induction ops generalizing st d₁ d₂ with
  | nil => rfl
  | cons op ops ih =>
    cases op with
    | uint64 =>
      simp only [Faker.run, Faker_Uint64_locked, Faker_Uint64_unlocked]
      rw [ih]
    | seed k =>
      simp only [Faker.run, Faker_Seed_locked, Faker_Seed_unlocked]
      rw [ih]

theorem run_unlocked_returns {σ : Type} (P : StdSource σ) (ops : List Op) (st : σ)
    (d : Reader) :
    (Faker.run P ops ⟨.unlocked st⟩ d).length = ops.length ∧
    ∀ o ∈ Faker.run P ops ⟨.unlocked st⟩ d, ∃ v, o = .ret v := by
  induction ops generalizing st d with
  | nil => simp [Faker.run]
  | cons op ops ih =>
    cases op with
    | uint64 =>
      simp only [Faker.run, Faker_Uint64_unlocked, List.length_cons, List.mem_cons]
      refine ⟨by rw [(ih _ _).1], ?_⟩
      rintro o (rfl | ho)
      · exact ⟨_, rfl⟩
      · exact (ih _ _).2 o ho
    | seed k =>
      simp only [Faker.run, Faker_Seed_unlocked, List.length_cons, List.mem_cons]
      refine ⟨by rw [(ih _ _).1], ?_⟩
      rintro o (rfl | ho)
      · exact ⟨_, rfl⟩
      · exact (ih _ _).2 o ho

/-- C7. For a seed `s ≠ 0` and every finite sequence of `Uint64` and `Seed`
calls, the generator from `New s` and the generator from `NewUnlocked s` give
the same outcome at every call, and every call returns. -/
theorem locked_unlocked_equivalent {σ : Type} (P : StdSource σ) (s : Int) (hs : s ≠ 0)
    (ops : List Op) (e₁ e₂ d₁ d₂ : Reader) :
    ∃ f g, New P s e₁ = (.ret f, e₁) ∧ NewUnlocked P s e₂ = (.ret g, e₂) ∧
      f.run P ops d₁ = g.run P ops d₂ ∧
      (f.run P ops d₁).length = ops.length ∧
      ∀ o ∈ f.run P ops d₁, ∃ v, o = .ret v := by
  refine ⟨_, _, New_of_ne_zero P s hs e₁, NewUnlocked_of_ne_zero P s hs e₂,
    run_locked_eq_unlocked P ops _ d₁ d₂, ?_, ?_⟩
  · rw [run_locked_eq_unlocked P ops _ d₁ d₂]
    exact (run_unlocked_returns P ops _ d₂).1
  · rw [run_locked_eq_unlocked P ops _ d₁ d₂]
    exact (run_unlocked_returns P ops _ d₂).2

/-- Witness of C7: seed 42, a draw, a reseed with 0, two draws. -/
theorem locked_unlocked_equivalent_witness :
    (42 : Int) ≠ 0 ∧
    ∃ f g, New lcg64 42 [] = (.ret f, []) ∧ NewUnlocked lcg64 42 [none] = (.ret g, [none]) ∧
      f.run lcg64 [.uint64, .seed 0, .uint64, .uint64] [] =
        g.run lcg64 [.uint64, .seed 0, .uint64, .uint64] [] ∧
      (f.run lcg64 [.uint64, .seed 0, .uint64, .uint64] []).length
        = [Op.uint64, .seed 0, .uint64, .uint64].length ∧
      ∀ o ∈ f.run lcg64 [.uint64, .seed 0, .uint64, .uint64] [], ∃ v, o = .ret v :=
  ⟨by decide,
   locked_unlocked_equivalent lcg64 42 (by decide) [.uint64, .seed 0, .uint64, .uint64]
     [] [none] [] []⟩

/-! ## Replacing the global generator -/

/-- C8, as stated, fails.  In `sampleWorld` the generator installed is the one
already installed, `SetGlobalFaker(globalFaker)`: `Seed 5` returns and the
previously installed generator goes from state 7 to state 5, its next draw
changes.  In `sharedWorld` the generator installed, at address 1, is another
`Faker` than the previous one, at address 0, and shares its `rand.Rand`: again
`Seed 5` reseeds the previously installed generator. -/
theorem SetGlobalFaker_then_Seed_changes_previous :
    (sampleWorld.globalFaker = 0 ∧
      (Seed lcg64 5 (SetGlobalFaker 0 sampleWorld).2).1 = .ret () ∧
      sampleWorld.heap 0 = ⟨.locked ⟨false, 7⟩⟩ ∧
      (Seed lcg64 5 (SetGlobalFaker 0 sampleWorld).2).2.heap 0 = ⟨.locked ⟨false, 5⟩⟩ ∧
      ((Seed lcg64 5 (SetGlobalFaker 0 sampleWorld).2).2.heap 0).draws lcg64 1 []
        ≠ (sampleWorld.heap 0).draws lcg64 1 []) ∧
    (sharedWorld.globalFaker = 0 ∧
      (SetGlobalFaker 1 sharedWorld).2.globalFaker = 1 ∧
      (Seed lcg64 5 (SetGlobalFaker 1 sharedWorld).2).1 = .ret () ∧
      sharedWorld.heap 0 = ⟨.locked ⟨false, 7⟩⟩ ∧
      (Seed lcg64 5 (SetGlobalFaker 1 sharedWorld).2).2.heap 0 = ⟨.locked ⟨false, 5⟩⟩ ∧
      ((Seed lcg64 5 (SetGlobalFaker 1 sharedWorld).2).2.heap 0).draws lcg64 1 []
        ≠ (sharedWorld.heap 0).draws lcg64 1 []) := by
  refine ⟨⟨rfl, by decide, rfl, rfl, by decide⟩, ⟨rfl, rfl, by decide, rfl, rfl, by decide⟩⟩

/-- C8, amended. `SetGlobalFaker g` returns, makes `g` the global generator and
changes no `Faker`, no `rand.Rand`, no source and not the reader.  A following
`Seed s` keeps `g` global and every `Faker` and `rand.Rand` as it is, applies
`Seed` (with the seed read from the reader when `s = 0`) to the source object
behind `g.Rand`, and changes no other source object: every generator whose
source is another object, the previously installed one when it is such, is
left untouched.  (A source of the caller is taken to act on its own state.) -/
theorem SetGlobalFaker_then_Seed {σ : Type} (P : StdSource σ) (W : World σ) (g : Nat)
    (s : Int) :
    ((SetGlobalFaker g W).1 = .ret () ∧
      (SetGlobalFaker g W).2.globalFaker = g ∧
      (SetGlobalFaker g W).2.fakers = W.fakers ∧
      (SetGlobalFaker g W).2.rands = W.rands ∧
      (SetGlobalFaker g W).2.sources = W.sources ∧
      (SetGlobalFaker g W).2.reader = W.reader) ∧
    ((Seed P s (SetGlobalFaker g W).2).2.globalFaker = g ∧
      (Seed P s (SetGlobalFaker g W).2).2.fakers = W.fakers ∧
      (Seed P s (SetGlobalFaker g W).2).2.rands = W.rands) ∧
    (Seed P s (SetGlobalFaker g W).2).2.heap g
      = (if s = 0 then
          ((W.heap g).Seed P (binaryRead s W.reader).seed (binaryRead s W.reader).rest).2.1
        else ((W.heap g).Seed P s W.reader).2.1) ∧
    (∀ c, c ≠ W.sourceOf g → (Seed P s (SetGlobalFaker g W).2).2.sources c = W.sources c) ∧
    (∀ a, W.sourceOf a ≠ W.sourceOf g →
      (Seed P s (SetGlobalFaker g W).2).2.heap a = W.heap a) ∧
    (W.sourceOf W.globalFaker ≠ W.sourceOf g →
      (Seed P s (SetGlobalFaker g W).2).2.heap W.globalFaker = W.heap W.globalFaker) := by
  have hsrc : ∀ c, c ≠ W.sourceOf g →
      (Seed P s (SetGlobalFaker g W).2).2.sources c = W.sources c := by
    intro c hc
    by_cases hs : s = 0
    · simp [Seed, hs, globalRandSeed, SetGlobalFaker, World.sourceOf, World.heap,
        Function.update_noteq (by simpa [World.sourceOf] using hc)]
    · simp [Seed, hs, globalRandSeed, SetGlobalFaker, World.sourceOf, World.heap,
        Function.update_noteq (by simpa [World.sourceOf] using hc)]
  have hptr : (Seed P s (SetGlobalFaker g W).2).2.globalFaker = g ∧
      (Seed P s (SetGlobalFaker g W).2).2.fakers = W.fakers ∧
      (Seed P s (SetGlobalFaker g W).2).2.rands = W.rands := by
    by_cases hs : s = 0
    · simp [Seed, hs, globalRandSeed, SetGlobalFaker]
    · simp [Seed, hs, globalRandSeed, SetGlobalFaker]
  have hframe : ∀ a, W.sourceOf a ≠ W.sourceOf g →
      (Seed P s (SetGlobalFaker g W).2).2.heap a = W.heap a := by
    intro a ha
    have h1 : (Seed P s (SetGlobalFaker g W).2).2.sourceOf a = W.sourceOf a := by
      simp [World.sourceOf, hptr.2.1, hptr.2.2]
    simp only [World.heap, h1, hsrc _ ha]
  refine ⟨⟨rfl, rfl, rfl, rfl, rfl, rfl⟩, hptr, ?_, hsrc, hframe, fun h => hframe _ h⟩
  by_cases hs : s = 0
  · simp [Seed, hs, globalRandSeed, SetGlobalFaker, World.sourceOf, World.heap]
  · simp [Seed, hs, globalRandSeed, SetGlobalFaker, World.sourceOf, World.heap]

/-- Witness of C8 amended: in `sampleWorld`, where every `Faker` has a source of
its own, installing the generator at address 1 and reseeding with 5 leaves the
generator at address 0, installed before, as it was, and reseeds the one at
address 1. -/
theorem SetGlobalFaker_then_Seed_witness :
    sampleWorld.sourceOf sampleWorld.globalFaker ≠ sampleWorld.sourceOf 1 ∧
    (Seed lcg64 5 (SetGlobalFaker 1 sampleWorld).2).2.heap sampleWorld.globalFaker
      = sampleWorld.heap sampleWorld.globalFaker ∧
    (Seed lcg64 5 (SetGlobalFaker 1 sampleWorld).2).2.heap 1 = ⟨.locked ⟨false, 5⟩⟩ :=
  ⟨by decide, (SetGlobalFaker_then_Seed lcg64 sampleWorld 1 5).2.2.2.2.2 (by decide), rfl⟩

/-! ## Release of the mutex -/

/-- C9. Entered with a free mutex, `lockedSource.Uint64` and `lockedSource.Seed`
on the source `New` wraps (the standard source, in any state) return and the
mutex is free again; `cryptoRand.Uint64` exits, by return or by the panic of
the decoding on a short buffer, and the mutex is free again, in particular when
the entropy read fails; and where a failed read ends the process, every exit
of the call that there is leaves the mutex free. -/
theorem mutex_free_on_every_exit {σ : Type} (P : StdSource σ) (r : lockedSource σ)
    (c : cryptoRand) (hr : r.lk = false) (hc : c.lk = false) (k : Int) (e : Reader) :
    ((r.Uint64 P.impl).1 = .ret (P.Uint64 r.src).1 ∧ (r.Uint64 P.impl).2.lk = false) ∧
    ((r.Seed P.impl k).1 = .ret () ∧ (r.Seed P.impl k).2.lk = false) ∧
    ((c.Uint64 e).1 ≠ .blocked ∧ (c.Uint64 e).2.1.lk = false) ∧
    ((readFull c.buf.length e).ok = false →
      (c.Uint64 e).1 ≠ .blocked ∧ (c.Uint64 e).2.1.lk = false) ∧
    (∀ res, c.Uint64Fatal e = some res → res.1 ≠ .blocked ∧ res.2.1.lk = false) := by
  obtain ⟨lk, st⟩ := r
  simp only at hr
  subst hr
  have hU : (c.Uint64 e).1 ≠ .blocked ∧ (c.Uint64 e).2.1.lk = false := by
    rw [cryptoRand_Uint64_free c hc]
    refine ⟨?_, rfl⟩
    simp only [bigEndianUint64]
    split <;> simp
  refine ⟨⟨rfl, rfl⟩, ⟨rfl, rfl⟩, hU, fun _ => hU, ?_⟩
  intro res hres
  simp only [cryptoRand.Uint64Fatal, hc, mutexLock, mutexUnlock] at hres
  by_cases hok : (readFull c.buf.length e).ok = true
  · simp only [hok, if_true, Bool.false_eq_true, if_false, Option.some.injEq] at hres
    subst hres
    refine ⟨?_, rfl⟩
    simp only [bigEndianUint64]
    split <;> simp
  · simp [hok] at hres

/-- Witness of C9: a locked source in state 7, and a crypto source whose read
fails after one byte. -/
theorem mutex_free_on_every_exit_witness :
    (readFull (cryptoRand.mk false (List.replicate 8 0)).buf.length [some 1, none]).ok = false ∧
    (lockedSource.Uint64 lcg64.impl ⟨false, 7⟩).1 = .ret 9098160460397411210 ∧
    (lockedSource.Uint64 lcg64.impl ⟨false, 7⟩).2.lk = false ∧
    (cryptoRand.Uint64 ⟨false, List.replicate 8 0⟩ [some 1, none]).1
      = .ret 72057594037927936 ∧
    (cryptoRand.Uint64 ⟨false, List.replicate 8 0⟩ [some 1, none]).2.1.lk = false :=
  ⟨by decide,
   (mutex_free_on_every_exit lcg64 ⟨false, 7⟩ ⟨false, List.replicate 8 0⟩ rfl rfl 3
      [some 1, none]).1.1,
   (mutex_free_on_every_exit lcg64 ⟨false, 7⟩ ⟨false, List.replicate 8 0⟩ rfl rfl 3
      [some 1, none]).1.2,
   by decide,
   (mutex_free_on_every_exit lcg64 ⟨false, 7⟩ ⟨false, List.replicate 8 0⟩ rfl rfl 3
      [some 1, none]).2.2.1.2⟩

/-- When `lockedSource.Uint64` or `lockedSource.Seed`, entered with a free
mutex, returns, the mutex is free again; when the call of the wrapped source
does not return, the mutex stays held, the unlock being an ordinary statement
after that call. -/
theorem lockedSource_mutex_after_call {σ : Type} (I : SourceImpl σ) (r : lockedSource σ)
    (hlk : r.lk = false) :
    (∀ n, (r.Uint64 I).1 = .ret n → (r.Uint64 I).2.lk = false) ∧
    (∀ u k, (r.Seed I k).1 = .ret u → (r.Seed I k).2.lk = false) ∧
    ((∀ n, (I.Uint64 r.src).1 ≠ .ret n) → (r.Uint64 I).2.lk = true) ∧
    (∀ k, (∀ u, (I.Seed k r.src).1 ≠ .ret u) → (r.Seed I k).2.lk = true) := by
  refine ⟨?_, ?_, ?_, ?_⟩
  · intro n
    unfold lockedSource.Uint64
    rw [hlk]
    simp only [mutexLock, mutexUnlock]
    rcases hI : I.Uint64 r.src with ⟨o, s1⟩
    cases o <;> simp
  · intro u k
    unfold lockedSource.Seed
    rw [hlk]
    simp only [mutexLock, mutexUnlock]
    rcases hI : I.Seed k r.src with ⟨o, s1⟩
    cases o <;> simp
  · intro h
    unfold lockedSource.Uint64
    rw [hlk]
    simp only [mutexLock, mutexUnlock]
    rcases hI : I.Uint64 r.src with ⟨o, s1⟩
    cases o with
    | ret n => exact absurd (by rw [hI]) (h n)
    | panicked => simp
    | blocked => simp
  · intro k h
    unfold lockedSource.Seed
    rw [hlk]
    simp only [mutexLock, mutexUnlock]
    rcases hI : I.Seed k r.src with ⟨o, s1⟩
    cases o with
    | ret u => exact absurd (by rw [hI]) (h u)
    | panicked => simp
    | blocked => simp

/-! ## Concurrent draws from the locked source -/

theorem advance_succ {σ : Type} (P : StdSource σ) (k : Nat) (st : σ) :
    P.advance (k + 1) st = (P.Uint64 (P.advance k st)).2 := by
  induction k generalizing st with
  | zero => rfl
  | succ k ih =>
    show P.advance (k + 1) (P.Uint64 st).2 = _
    rw [ih]
    rfl

theorem stream_succ {σ : Type} (P : StdSource σ) (k : Nat) (st : σ) :
    P.stream (k + 1) st = P.stream k st ++ [(P.Uint64 (P.advance k st)).1] := by
  induction k generalizing st with
  | zero => rfl
  | succ k ih =>
    show (P.Uint64 st).1 :: P.stream (k + 1) (P.Uint64 st).2 = _
    rw [ih]
    rfl

theorem valsOf_append (A B : List Goroutine) : valsOf (A ++ B) = valsOf A ++ valsOf B := by
  induction A with
  | nil => rfl
  | cons g A ih => simp [valsOf, ih]

theorem busy_append (A B : List Goroutine) : busy (A ++ B) = busy A + busy B := by
  induction A with
  | nil => simp [busy]
  | cons g A ih => simp [busy, ih]; omega

theorem work_append (A B : List Goroutine) : work (A ++ B) = work A + work B := by
  induction A with
  | nil => simp [work]
  | cons g A ih => simp [work, ih]; omega

theorem split_at_index (gs : List Goroutine) (i : Nat) (g : Goroutine)
    (h : gs[i]? = some g) :
    ∃ A B, gs = A ++ g :: B ∧ ∀ g', gs.set i g' = A ++ g' :: B := by
  induction gs generalizing i with
  | nil => simp at h
  | cons x xs ih =>
    cases i with
    | zero =>
      simp at h
      subst h
      exact ⟨[], xs, rfl, fun _ => rfl⟩
    | succ i =>
      simp at h
      obtain ⟨A, B, h1, h2⟩ := ih i h
      refine ⟨x :: A, B, by rw [h1]; rfl, fun g' => ?_⟩
      simp [h2 g']

theorem Concurrent_step_split {σ : Type} (P : StdSource σ) (C : Concurrent σ) (i : Nat) :
    C.step P i = C ∨
    ∃ A B g, C.gs = A ++ g :: B ∧
      C.step P i = ⟨(g.step P C.r).1, A ++ (g.step P C.r).2 :: B⟩ := by
  unfold Concurrent.step
  cases hg : C.gs[i]? with
  | none => exact Or.inl rfl
  | some g =>
    obtain ⟨A, B, h1, h2⟩ := split_at_index C.gs i g hg
    exact Or.inr ⟨A, B, g, h1, by simp [h2]⟩

theorem forall_mem_replace (Q : Goroutine → Prop) (A B : List Goroutine) (g g' : Goroutine)
    (h : ∀ x ∈ A ++ g :: B, Q x) (hg' : Q g') : ∀ x ∈ A ++ g' :: B, Q x := by
  intro x hx
  simp only [List.mem_append, List.mem_cons] at hx
  rcases hx with hx | rfl | hx
  · exact h x (by simp [hx])
  · exact hg'
  · exact h x (by simp [hx])

theorem Inv_step_at {σ : Type} (P : StdSource σ) (st0 : σ) (M : Nat) (r : lockedSource σ)
    (A B : List Goroutine) (g : Goroutine) (h : Inv P st0 M ⟨r, A ++ g :: B⟩) :
    Inv P st0 M ⟨(g.step P r).1, A ++ (g.step P r).2 :: B⟩ := by
  obtain ⟨lk, src⟩ := r
  obtain ⟨pc, todo, got⟩ := g
  have hsrc := h.src
  have hperm := h.perm
  have hlock := h.lock
  have hcalls := h.calls
  have hg := hcalls ⟨pc, todo, got⟩ (by simp)
  simp only at hsrc hperm hlock hcalls hg
  cases pc with
  | idle =>
    by_cases ht : todo = 0
    · have hstep : Goroutine.step P ⟨lk, src⟩ ⟨.idle, todo, got⟩
          = (⟨lk, src⟩, ⟨.idle, todo, got⟩) := by simp [Goroutine.step, ht]
      rw [hstep]
      exact h
    · cases lk with
      | true =>
        have hstep : Goroutine.step P ⟨true, src⟩ ⟨.idle, todo, got⟩
            = (⟨true, src⟩, ⟨.idle, todo, got⟩) := by simp [Goroutine.step, ht, mutexLock]
        rw [hstep]
        exact h
      | false =>
        have hstep : Goroutine.step P ⟨false, src⟩ ⟨.idle, todo, got⟩
            = (⟨true, src⟩, ⟨.holding, todo, got⟩) := by simp [Goroutine.step, ht, mutexLock]
        rw [hstep]
        have hv : valsOf (A ++ (⟨.holding, todo, got⟩ : Goroutine) :: B)
            = valsOf (A ++ (⟨.idle, todo, got⟩ : Goroutine) :: B) := by
          simp [valsOf_append, valsOf, Goroutine.vals, PC.pending]
        refine ⟨?_, ?_, ?_, ?_⟩
        · simp only [hv]; exact hsrc
        · simp only [hv]; exact hperm
        · simp only [busy_append, busy] at hlock ⊢
          simp at hlock ⊢
          omega
        · exact forall_mem_replace _ A B _ _ hcalls ⟨hg.1, fun _ => Nat.pos_of_ne_zero ht⟩
  | holding =>
    have hlk : lk = true := by
      cases lk with
      | true => rfl
      | false =>
        simp only [busy_append, busy] at hlock
        simp at hlock
    subst hlk
    have hstep : Goroutine.step P ⟨true, src⟩ ⟨.holding, todo, got⟩
        = (⟨true, (P.Uint64 src).2⟩, ⟨.drawn (P.Uint64 src).1, todo, got⟩) := by
      simp [Goroutine.step, StdSource.impl]
    rw [hstep]
    have hlen : (valsOf (A ++ (⟨.drawn (P.Uint64 src).1, todo, got⟩ : Goroutine) :: B)).length
        = (valsOf (A ++ (⟨.holding, todo, got⟩ : Goroutine) :: B)).length + 1 := by
      simp [valsOf_append, valsOf, Goroutine.vals, PC.pending]
      omega
    have hp : (valsOf (A ++ (⟨.drawn (P.Uint64 src).1, todo, got⟩ : Goroutine) :: B)).Perm
        (valsOf (A ++ (⟨.holding, todo, got⟩ : Goroutine) :: B) ++ [(P.Uint64 src).1]) := by
      simp only [valsOf_append, valsOf, Goroutine.vals, PC.pending, List.append_nil,
        List.append_assoc]
      exact (List.perm_append_comm.append_left got).append_left (valsOf A)
    refine ⟨?_, ?_, ?_, ?_⟩
    · show (P.Uint64 src).2 = _
      rw [hlen, advance_succ, ← hsrc]
    · show List.Perm _ (P.stream _ st0)
      rw [hlen, stream_succ, ← hsrc]
      exact hp.trans (hperm.append_right _)
    · simp only [busy_append, busy] at hlock ⊢
      simpa using hlock
    · exact forall_mem_replace _ A B _ _ hcalls ⟨hg.1, fun _ => hg.2 (by simp)⟩
  | drawn n =>
    have hlk : lk = true := by
      cases lk with
      | true => rfl
      | false =>
        simp only [busy_append, busy] at hlock
        simp at hlock
    subst hlk
    have hstep : Goroutine.step P ⟨true, src⟩ ⟨.drawn n, todo, got⟩
        = (⟨false, src⟩, ⟨.idle, todo - 1, got ++ [n]⟩) := by
      simp [Goroutine.step, mutexUnlock]
    rw [hstep]
    have hv : valsOf (A ++ (⟨.idle, todo - 1, got ++ [n]⟩ : Goroutine) :: B)
        = valsOf (A ++ (⟨.drawn n, todo, got⟩ : Goroutine) :: B) := by
      simp [valsOf_append, valsOf, Goroutine.vals, PC.pending]
    have htodo : 0 < todo := hg.2 (by simp)
    refine ⟨?_, ?_, ?_, ?_⟩
    · simp only [hv]; exact hsrc
    · simp only [hv]; exact hperm
    · simp only [busy_append, busy] at hlock ⊢
      simp at hlock ⊢
      omega
    · refine forall_mem_replace _ A B _ _ hcalls ⟨?_, fun h => absurd rfl h⟩
      simp only [List.length_append, List.length_singleton]
      omega

theorem Inv_step {σ : Type} (P : StdSource σ) (st0 : σ) (M : Nat) (C : Concurrent σ)
    (h : Inv P st0 M C) (i : Nat) : Inv P st0 M (C.step P i) := by
  rcases Concurrent_step_split P C i with hC | ⟨A, B, g, hgs, hC⟩
  · rw [hC]; exact h
  · rw [hC]
    obtain ⟨r, gs⟩ := C
    simp only at hgs
    subst hgs
    exact Inv_step_at P st0 M r A B g h

theorem Inv_run {σ : Type} (P : StdSource σ) (st0 : σ) (M : Nat) (sched : List Nat)
    (C : Concurrent σ) (h : Inv P st0 M C) : Inv P st0 M (C.run P sched) := by
  induction sched generalizing C with
  | nil => exact h
  | cons i sched ih => exact ih _ (Inv_step P st0 M C h i)

theorem valsOf_replicate_idle (N M : Nat) :
    valsOf (List.replicate N (⟨.idle, M, []⟩ : Goroutine)) = [] := by
  induction N with
  | zero => rfl
  | succ N ih => simp [List.replicate_succ, valsOf, Goroutine.vals, PC.pending, ih]

theorem busy_replicate_idle (N M : Nat) :
    busy (List.replicate N (⟨.idle, M, []⟩ : Goroutine)) = 0 := by
  induction N with
  | zero => rfl
  | succ N ih => simp [List.replicate_succ, busy, ih]

theorem Inv_start {σ : Type} (P : StdSource σ) (st0 : σ) (N M : Nat) :
    Inv P st0 M (Concurrent.start ⟨false, st0⟩ N M) := by
  refine ⟨?_, ?_, ?_, ?_⟩
  · simp [Concurrent.start, valsOf_replicate_idle, StdSource.advance]
  · simp [Concurrent.start, valsOf_replicate_idle, StdSource.stream]
  · simp [Concurrent.start, busy_replicate_idle]
  · intro g hg
    have := List.eq_of_mem_replicate hg
    subst this
    exact ⟨by simp, fun h => absurd rfl h⟩

theorem Concurrent_step_of_get {σ : Type} (P : StdSource σ) (C : Concurrent σ) (i : Nat)
    (g : Goroutine) (hg : C.gs[i]? = some g) :
    ∃ A B, C.gs = A ++ g :: B ∧
      C.step P i = ⟨(g.step P C.r).1, A ++ (g.step P C.r).2 :: B⟩ := by
  obtain ⟨A, B, h1, h2⟩ := split_at_index C.gs i g hg
  exact ⟨A, B, h1, by simp [Concurrent.step, hg, h2]⟩

theorem busy_pos (gs : List Goroutine) (h : 0 < busy gs) : ∃ g ∈ gs, g.pc ≠ .idle := by
  induction gs with
  | nil => simp [busy] at h
  | cons x xs ih =>
    by_cases hx : x.pc = .idle
    · simp only [busy, hx, if_true, Nat.zero_add] at h
      obtain ⟨g, hg, hne⟩ := ih h
      exact ⟨g, by simp [hg], hne⟩
    · exact ⟨x, by simp, hx⟩

theorem busy_zero (gs : List Goroutine) (h : busy gs = 0) : ∀ g ∈ gs, g.pc = .idle := by
  induction gs with
  | nil => simp
  | cons x xs ih =>
    by_cases hx : x.pc = .idle
    · simp only [busy, hx, if_true, Nat.zero_add] at h
      intro g hg
      simp only [List.mem_cons] at hg
      rcases hg with rfl | hg
      · exact hx
      · exact ih h g hg
    · simp [busy, hx] at h

theorem busy_of_idle (gs : List Goroutine) (h : ∀ g ∈ gs, g.pc = .idle) : busy gs = 0 := by
  induction gs with
  | nil => rfl
  | cons x xs ih =>
    have hx : x.pc = .idle := h x (by simp)
    simp only [busy, hx, if_true, Nat.zero_add]
    exact ih (fun g hg => h g (by simp [hg]))

theorem work_step_at {σ : Type} (P : StdSource σ) (r : lockedSource σ)
    (A B : List Goroutine) (g : Goroutine) (ht : 0 < g.todo)
    (hmove : (g.pc ≠ .idle ∧ r.lk = true) ∨ (g.pc = .idle ∧ r.lk = false)) :
    work (A ++ (g.step P r).2 :: B) < work (A ++ g :: B) := by
  obtain ⟨lk, src⟩ := r
  obtain ⟨pc, todo, got⟩ := g
  simp only at ht hmove
  simp only [work_append, work]
  cases pc with
  | idle =>
    rcases hmove with ⟨h, _⟩ | ⟨_, h⟩
    · exact absurd rfl h
    · subst h
      have hstep : Goroutine.step P ⟨false, src⟩ ⟨.idle, todo, got⟩
          = (⟨true, src⟩, ⟨.holding, todo, got⟩) := by
        simp [Goroutine.step, Nat.pos_iff_ne_zero.mp ht, mutexLock]
      rw [hstep]
      simp only [PC.offset]
      omega
  | holding =>
    have hstep : Goroutine.step P ⟨lk, src⟩ ⟨.holding, todo, got⟩
        = (⟨lk, (P.Uint64 src).2⟩, ⟨.drawn (P.Uint64 src).1, todo, got⟩) := by
      simp [Goroutine.step, StdSource.impl]
    rw [hstep]
    simp only [PC.offset]
    omega
  | drawn n =>
    rcases hmove with ⟨_, h⟩ | ⟨h, _⟩
    · subst h
      have hstep : Goroutine.step P ⟨true, src⟩ ⟨.drawn n, todo, got⟩
          = (⟨false, src⟩, ⟨.idle, todo - 1, got ++ [n]⟩) := by
        simp [Goroutine.step, mutexUnlock]
      rw [hstep]
      simp only [PC.offset]
      omega
    · simp at h

theorem finished_iff {σ : Type} (C : Concurrent σ) :
    C.finished = true ↔ ∀ g ∈ C.gs, g.pc = .idle ∧ g.todo = 0 := by
  simp [Concurrent.finished, List.all_eq_true]

theorem progress {σ : Type} (P : StdSource σ) (st0 : σ) (M : Nat) (C : Concurrent σ)
    (h : Inv P st0 M C) (hnf : ¬ C.finished = true) :
    ∃ i, work (C.step P i).gs < work C.gs := by
  have hmover : ∃ g ∈ C.gs, 0 < g.todo ∧
      ((g.pc ≠ .idle ∧ C.r.lk = true) ∨ (g.pc = .idle ∧ C.r.lk = false)) := by
    cases hlk : C.r.lk with
    | true =>
      have hb : 0 < busy C.gs := by rw [h.lock, hlk]; simp
      obtain ⟨g, hg, hne⟩ := busy_pos C.gs hb
      exact ⟨g, hg, (h.calls g hg).2 hne, Or.inl ⟨hne, rfl⟩⟩
    | false =>
      have hb : busy C.gs = 0 := by rw [h.lock, hlk]; simp
      have hidle := busy_zero C.gs hb
      rw [finished_iff] at hnf
      push_neg at hnf
      obtain ⟨g, hg, hgt⟩ := hnf
      exact ⟨g, hg, Nat.pos_of_ne_zero (hgt (hidle g hg)), Or.inr ⟨hidle g hg, rfl⟩⟩
  obtain ⟨g, hg, ht, hmove⟩ := hmover
  obtain ⟨i, hi⟩ := List.getElem?_of_mem hg
  obtain ⟨A, B, hgs, hstep⟩ := Concurrent_step_of_get P C i g hi
  refine ⟨i, ?_⟩
  rw [hstep, hgs]
  exact work_step_at P C.r A B g ht hmove

theorem run_cons {σ : Type} (P : StdSource σ) (C : Concurrent σ) (i : Nat)
    (sched : List Nat) : C.run P (i :: sched) = (C.step P i).run P sched :=
  rfl

theorem run_append {σ : Type} (P : StdSource σ) (C : Concurrent σ) (a b : List Nat) :
    C.run P (a ++ b) = (C.run P a).run P b := by
  simp [Concurrent.run, List.foldl_append]

theorem completes {σ : Type} (P : StdSource σ) (st0 : σ) (M : Nat) (n : Nat) :
    ∀ C : Concurrent σ, Inv P st0 M C → work C.gs = n →
      ∃ rest, (C.run P rest).finished = true := by
  induction n using Nat.strong_induction_on with
  | _ n ih =>
    intro C hC hn
    by_cases hf : C.finished = true
    · exact ⟨[], hf⟩
    · obtain ⟨i, hi⟩ := progress P st0 M C hC hf
      obtain ⟨rest, hrest⟩ := ih _ (by rw [← hn]; exact hi) (C.step P i)
        (Inv_step P st0 M C hC i) rfl
      exact ⟨i :: rest, by rw [run_cons]; exact hrest⟩

theorem length_step {σ : Type} (P : StdSource σ) (C : Concurrent σ) (i : Nat) :
    (C.step P i).gs.length = C.gs.length := by
  unfold Concurrent.step
  cases C.gs[i]? with
  | none => rfl
  | some g => simp

theorem length_run {σ : Type} (P : StdSource σ) (sched : List Nat) (C : Concurrent σ) :
    (C.run P sched).gs.length = C.gs.length := by
  induction sched generalizing C with
  | nil => rfl
  | cons i sched ih => rw [run_cons, ih, length_step]

theorem valsOf_of_idle (gs : List Goroutine) (h : ∀ g ∈ gs, g.pc = .idle) :
    valsOf gs = (gs.map Goroutine.got).flatten := by
  induction gs with
  | nil => rfl
  | cons x xs ih =>
    have hx : x.pc = .idle := h x (by simp)
    simp [valsOf, Goroutine.vals, hx, PC.pending, ih (fun g hg => h g (by simp [hg]))]

theorem length_flatten_got (gs : List Goroutine) (M : Nat)
    (h : ∀ g ∈ gs, g.got.length = M) :
    (gs.map Goroutine.got).flatten.length = gs.length * M := by
  induction gs with
  | nil => simp
  | cons x xs ih =>
    have hx := h x (by simp)
    have := ih (fun g hg => h g (by simp [hg]))
    simp only [List.map_cons, List.flatten_cons, List.length_append, List.length_cons, this, hx]
    rw [Nat.succ_mul]
    omega

theorem finished_facts {σ : Type} (P : StdSource σ) (st0 : σ) (M : Nat) (C : Concurrent σ)
    (h : Inv P st0 M C) (hf : C.finished = true) :
    C.r.lk = false ∧ (∀ g ∈ C.gs, g.got.length = M) ∧
    (C.gs.map Goroutine.got).flatten.length = C.gs.length * M ∧
    (C.gs.map Goroutine.got).flatten.Perm (P.stream (C.gs.length * M) st0) := by
  rw [finished_iff] at hf
  have hidle : ∀ g ∈ C.gs, g.pc = .idle := fun g hg => (hf g hg).1
  have hgot : ∀ g ∈ C.gs, g.got.length = M := by
    intro g hg
    have := (h.calls g hg).1
    rw [(hf g hg).2] at this
    simpa using this
  have hlen := length_flatten_got C.gs M hgot
  refine ⟨?_, hgot, hlen, ?_⟩
  · have hb := h.lock
    rw [busy_of_idle C.gs hidle] at hb
    cases hlk : C.r.lk with
    | false => rfl
    | true => rw [hlk] at hb; simp at hb
  · have hp := h.perm
    rw [valsOf_of_idle C.gs hidle, hlen] at hp
    exact hp

/-- A goroutine that runs alone makes the call `lockedSource.Uint64`: its three
statements leave the source as the call does and return the value it returns. -/
theorem Goroutine_steps_are_Uint64 {σ : Type} (P : StdSource σ) (st : σ) (t : Nat)
    (got : List Nat) :
    (lockedSource.Uint64 P.impl ⟨false, st⟩).1 = .ret (P.Uint64 st).1 ∧
    (Goroutine.step P
      (Goroutine.step P
        (Goroutine.step P ⟨false, st⟩ ⟨.idle, t + 1, got⟩).1
        (Goroutine.step P ⟨false, st⟩ ⟨.idle, t + 1, got⟩).2).1
      (Goroutine.step P
        (Goroutine.step P ⟨false, st⟩ ⟨.idle, t + 1, got⟩).1
        (Goroutine.step P ⟨false, st⟩ ⟨.idle, t + 1, got⟩).2).2)
      = ((lockedSource.Uint64 P.impl ⟨false, st⟩).2, ⟨.idle, t, got ++ [(P.Uint64 st).1]⟩) := by
  refine ⟨rfl, ?_⟩
  simp [Goroutine.step, mutexLock, mutexUnlock, StdSource.impl, lockedSource.Uint64]

theorem New_locked {σ : Type} (P : StdSource σ) (s : Int) (e : Reader) :
    ∃ st e', New P s e = (.ret ⟨.locked ⟨false, st⟩⟩, e') := by
  by_cases hs : s = 0
  · exact ⟨P.NewSource (binaryRead 0 e).seed, (binaryRead 0 e).rest, by simp [New, hs]⟩
  · exact ⟨_, _, New_of_ne_zero P s hs e⟩

/-- C10. Let `N` goroutines each call `Uint64` `M` times on the `lockedSource` of
one generator from `New s`, their statements interleaved by any schedule.  At
every point of every interleaving at most one goroutine is between `Lock` and
`Unlock`; every interleaving can be continued until all goroutines have
returned from their last call; and whenever all have, the mutex is free, each
goroutine has obtained `M` values, `N * M` in all, and these values are, up to
their order, the first `N * M` draws of that generator run by one goroutine. -/
theorem locked_concurrent_draws {σ : Type} (P : StdSource σ) (s : Int) (e : Reader)
    (N M : Nat) (sched : List Nat) (d : Reader) :
    ∃ f r e', New P s e = (.ret f, e') ∧ f.Rand = .locked r ∧
      busy ((Concurrent.start r N M).run P sched).gs ≤ 1 ∧
      (∃ rest, ((Concurrent.start r N M).run P (sched ++ rest)).finished = true) ∧
      (((Concurrent.start r N M).run P sched).finished = true →
        ((Concurrent.start r N M).run P sched).r.lk = false ∧
        ((Concurrent.start r N M).run P sched).gs.length = N ∧
        (∀ g ∈ ((Concurrent.start r N M).run P sched).gs, g.got.length = M) ∧
        ((((Concurrent.start r N M).run P sched).gs.map Goroutine.got).flatten).length
          = N * M ∧
        (((((Concurrent.start r N M).run P sched).gs.map Goroutine.got).flatten).map
          Outcome.ret).Perm (f.draws P (N * M) d)) := by
  obtain ⟨st, e', hNew⟩ := New_locked P s e
  have hI := Inv_run P st M sched _ (Inv_start P st N M)
  have hlen : ((Concurrent.start ⟨false, st⟩ N M).run P sched).gs.length = N := by
    rw [length_run]
    simp [Concurrent.start]
  refine ⟨_, ⟨false, st⟩, e', hNew, rfl, ?_, ?_, ?_⟩
  · rw [hI.lock]
    split <;> simp
  · obtain ⟨rest, hrest⟩ := completes P st M _ _ hI rfl
    exact ⟨rest, by rw [run_append]; exact hrest⟩
  · intro hf
    obtain ⟨h1, h2, h3, h4⟩ := finished_facts P st M _ hI hf
    rw [hlen] at h3 h4
    refine ⟨h1, hlen, h2, h3, ?_⟩
    rw [draws_locked]
    exact h4.map _

/-- Witness of C10: two goroutines, two calls each, seed 42; the second goroutine
finds the mutex held twice before its first call goes through. -/
theorem locked_concurrent_draws_witness :
    ((Concurrent.start ⟨false, lcg64.NewSource 42⟩ 2 2).run lcg64
      [0, 1, 0, 1, 0, 1, 1, 1, 0, 0, 0, 1, 1, 1]).finished = true ∧
    ∃ f r e', New lcg64 42 [] = (.ret f, e') ∧ f.Rand = .locked r ∧
      busy ((Concurrent.start r 2 2).run lcg64
        [0, 1, 0, 1, 0, 1, 1, 1, 0, 0, 0, 1, 1, 1]).gs ≤ 1 ∧
      (∃ rest, ((Concurrent.start r 2 2).run lcg64
        ([0, 1, 0, 1, 0, 1, 1, 1, 0, 0, 0, 1, 1, 1] ++ rest)).finished = true) ∧
      (((Concurrent.start r 2 2).run lcg64
          [0, 1, 0, 1, 0, 1, 1, 1, 0, 0, 0, 1, 1, 1]).finished = true →
        ((Concurrent.start r 2 2).run lcg64
          [0, 1, 0, 1, 0, 1, 1, 1, 0, 0, 0, 1, 1, 1]).r.lk = false ∧
        ((Concurrent.start r 2 2).run lcg64
          [0, 1, 0, 1, 0, 1, 1, 1, 0, 0, 0, 1, 1, 1]).gs.length = 2 ∧
        (∀ g ∈ ((Concurrent.start r 2 2).run lcg64
          [0, 1, 0, 1, 0, 1, 1, 1, 0, 0, 0, 1, 1, 1]).gs, g.got.length = 2) ∧
        ((((Concurrent.start r 2 2).run lcg64
          [0, 1, 0, 1, 0, 1, 1, 1, 0, 0, 0, 1, 1, 1]).gs.map Goroutine.got).flatten).length
          = 2 * 2 ∧
        (((((Concurrent.start r 2 2).run lcg64
          [0, 1, 0, 1, 0, 1, 1, 1, 0, 0, 0, 1, 1, 1]).gs.map Goroutine.got).flatten).map
          Outcome.ret).Perm (f.draws lcg64 (2 * 2) [])) :=
  ⟨by decide,
   locked_concurrent_draws lcg64 42 [] 2 2 [0, 1, 0, 1, 0, 1, 1, 1, 0, 0, 0, 1, 1, 1] []⟩

end Gofakeit
